import Mathlib

/-!
Verification development for the FaaSr VM-injection engine
(scripts/faasr_inject_vm.py).  The Python tool mutates a workflow JSON
document in place; here the workflow is an explicit value and each
method of VMInjectionTool becomes a pure function.  A raised exception
becomes an error value paired with the workflow state at the moment of
the raise, so that statements about partial mutation can be made.
-/

namespace FaasrVM

/-- A value of a conditional InvokeNext mapping: either a single action
name or a list of action names (the two JSON forms the tool accepts). -/
inductive CondVal where
  | s (v : String)
  | l (vs : List String)
deriving DecidableEq, Repr

/-- The three JSON shapes of an InvokeNext field: a bare string, a list
of strings, or a mapping from condition label to targets.  An absent
field is represented as list []. -/
inductive InvokeNext where
  | str (s : String)
  | list (l : List String)
  | cond (m : List (String × CondVal))
deriving DecidableEq, Repr

/-- The fields of one action configuration that the injection tool reads
or writes.  Absent RequiresVM is represented as false, absent
InvokeNext as list []. -/
structure Action where
  functionName : String
  faasServer : String
  typ : String
  requiresVM : Bool
  invokeNext : InvokeNext
  builtin : Bool
deriving DecidableEq, Repr

/-- The parts of the workflow document the tool reads or writes.
ActionList and ComputeServers are association lists in JSON insertion
order (Python dicts preserve insertion order); ActionContainers and
ComputeServers keys may be absent from the document, modelled by
Option. ComputeServers values keep only the FaaSType tag. -/
structure Workflow where
  actionList : List (String × Action)
  actionContainers : Option (List (String × String))
  computeServers : Option (List (String × String))
  hasVMConfig : Bool
  functionInvoke : String
deriving DecidableEq, Repr

/-- Errors raised by the injection methods (ValueError messages in the
Python source). -/
inductive InjectError where
  | noVMConfig
  | noEntry
  | ambiguousEntry
  | noLeaves
  | noComputeServers
  | noGithubServer
  | startConflict
  | stopConflict
  | pollConflict (n : String)
deriving DecidableEq, Repr

/-- Targets of one conditional value. -/
def CondVal.targets : CondVal → List String
  | .s v => [v]
  | .l vs => vs

/-- The flattening of an InvokeNext field performed by
find_entry_action: a string becomes a one-element list, a dict is
flattened value by value in key order (lists extended, strings
appended). -/
def flattenInvoke : InvokeNext → List String
  | .str s => [s]
  | .list l => l
  | .cond m => m.foldr (fun p acc => p.2.targets ++ acc) []

/-- Python falsiness of an InvokeNext value, as used by
find_leaf_actions (empty string, empty list and empty dict are falsy). -/
def isEmptyInvoke : InvokeNext → Bool
  | .str s => s == ""
  | .list l => l.isEmpty
  | .cond m => m.isEmpty

/-- The key list of an action list. -/
def keys (al : List (String × Action)) : List String := al.map Prod.fst

/-- The predecessor count computed by find_entry_action for an action
name: one per occurrence of the name in a flattened InvokeNext list,
summed over all actions.  (Python only increments entries of the
predecessor dict, whose keys are the action names; evaluated at an
action name this is the same number.) -/
def predSum (al : List (String × Action)) (t : String) : Nat :=
  (al.map (fun p => (flattenInvoke p.2.invokeNext).count t)).sum

/-- find_entry_action: the actions with predecessor count zero; exactly
one must exist. -/
def find_entry_action (al : List (String × Action)) : Except InjectError String :=
  match (keys al).filter (fun n => predSum al n == 0) with
  | [] => .error .noEntry
  | [e] => .ok e
  | _ => .error .ambiguousEntry

/-- find_leaf_actions: all actions whose InvokeNext is falsy, in order;
error if none. -/
def find_leaf_actions (al : List (String × Action)) : Except InjectError (List String) :=
  let ls := (al.filter (fun p => isEmptyInvoke p.2.invokeNext)).map Prod.fst
  if ls.isEmpty then .error .noLeaves else .ok ls

/-- find_github_server: the first compute server whose FaaSType is
GitHubActions. -/
def find_github_server (w : Workflow) : Except InjectError String :=
  match w.computeServers with
  | none => .error .noComputeServers
  | some cs =>
    match cs.find? (fun p => p.2 == "GitHubActions") with
    | some p => .ok p.1
    | none => .error .noGithubServer

/-- Lookup in a string association list (Python dict .get). -/
def lookupStr (m : List (String × String)) (k : String) : Option String :=
  (m.find? (fun p => p.1 == k)).map Prod.snd

/-- find_container_for_server: scan actions in order; for the first one
bound to the server whose container entry is truthy, return that
container. -/
def find_container_for_server (ac : List (String × String)) :
    List (String × Action) → String → Option String
  | [], _ => none
  | p :: rest, server =>
    if p.2.faasServer == server then
      match lookupStr ac p.1 with
      | some c => if c == "" then find_container_for_server ac rest server else some c
      | none => find_container_for_server ac rest server
    else find_container_for_server ac rest server

/-- needs_vm: some action has RequiresVM true. -/
def needs_vm (w : Workflow) : Bool :=
  w.actionList.any (fun p => p.2.requiresVM)

def vmStartName : String := "faasr-vm-start"
def vmStopName : String := "faasr-vm-stop"

/-- The deterministic poll-node name for a VM-requiring action. -/
def pollName (v : String) : String := "faasr-vm-poll-" ++ v

/-- The injected vm_start action. -/
def mkStart (server entry : String) : Action :=
  { functionName := "vm_start", faasServer := server, typ := "Python",
    requiresVM := false, invokeNext := .list [entry], builtin := true }

/-- The injected vm_stop action. -/
def mkStop (server : String) : Action :=
  { functionName := "vm_stop", faasServer := server, typ := "Python",
    requiresVM := false, invokeNext := .list [], builtin := true }

/-- The injected vm_poll action gating a VM-requiring action. -/
def mkPoll (server v : String) : Action :=
  { functionName := "vm_poll", faasServer := server, typ := "Python",
    requiresVM := false, invokeNext := .list [v], builtin := true }

/-- Dict assignment d[k] = v: overwrite in place if the key exists,
append otherwise. -/
def upsert (m : List (String × String)) (k v : String) : List (String × String) :=
  if (m.map Prod.fst).contains k then
    m.map (fun p => if p.1 == k then (k, v) else p)
  else m ++ [(k, v)]

/-- Overwrite the InvokeNext of the action with the given name. -/
def setInvoke (al : List (String × Action)) (n : String) (inv : InvokeNext) :
    List (String × Action) :=
  al.map (fun p => if p.1 == n then (p.1, { p.2 with invokeNext := inv }) else p)

/-- The leaf-redirection loop: each leaf's InvokeNext becomes the
single edge to vm_stop. -/
def setLeavesToStop (al : List (String × Action)) (leaves : List String) :
    List (String × Action) :=
  leaves.foldl (fun acc leaf => setInvoke acc leaf (.list [vmStopName])) al

/-- inject_vm_actions_sequential.  The error value carries the workflow
state at the moment the exception is raised; in this strategy every
raise happens before any mutation, so each error carries the input. -/
def inject_vm_actions_sequential (w : Workflow) :
    Except (InjectError × Workflow) Workflow :=
  if !w.hasVMConfig then .error (.noVMConfig, w) else
  match find_entry_action w.actionList with
  | .error e => .error (e, w)
  | .ok entry =>
  match find_leaf_actions w.actionList with
  | .error e => .error (e, w)
  | .ok leaves =>
  match find_github_server w with
  | .error e => .error (e, w)
  | .ok server =>
  let container := find_container_for_server (w.actionContainers.getD []) w.actionList server
  if (keys w.actionList).contains vmStartName then .error (.startConflict, w) else
  if (keys w.actionList).contains vmStopName then .error (.stopConflict, w) else
  let al2 := (w.actionList ++ [(vmStartName, mkStart server entry)])
               ++ [(vmStopName, mkStop server)]
  let al3 := setLeavesToStop al2 leaves
  let base := w.actionContainers.getD []
  let ac2 := match container with
             | some c => some (upsert (upsert base vmStartName c) vmStopName c)
             | none => some base
  .ok { w with actionList := al3, actionContainers := ac2,
               functionInvoke := vmStartName }

/-- One redirection of an InvokeNext field toward a poll node, exactly
as the Python loop body does it: a bare string is first wrapped in a
one-element list; membership in a dict tests its KEYS, and iterating a
dict yields its keys, so a conditional mapping is redirected only when
a condition label equals the VM action name, and is then replaced by
the list of its keys with that label substituted. -/
def redirectInv (v poll : String) (inv : InvokeNext) : InvokeNext :=
  match inv with
  | .str s => if s == v then .list [poll] else .str s
  | .list l =>
      if l.contains v then .list (l.map (fun x => if x == v then poll else x))
      else .list l
  | .cond m =>
      if (m.map Prod.fst).contains v then
        .list ((m.map Prod.fst).map (fun x => if x == v then poll else x))
      else .cond m

/-- One pass of the redirection scan over the whole action list,
skipping the freshly created poll node by name. -/
def redirectAll (v poll : String) (al : List (String × Action)) :
    List (String × Action) :=
  al.map (fun p =>
    if p.1 == poll then p
    else (p.1, { p.2 with invokeNext := redirectInv v poll p.2.invokeNext }))

/-- The per-VM-action loop of the parallel strategy: for each
VM-requiring action, check the poll name for conflicts, insert the poll
node, record its container, and run the redirection scan.  A conflict
carries the mutated action list and container map at that point. -/
def injectPolls (server : String) (container : Option String) :
    List String → List (String × Action) → Option (List (String × String)) →
    Except (InjectError × List (String × Action) × Option (List (String × String)))
           (List (String × Action) × Option (List (String × String)))
  | [], al, ac => .ok (al, ac)
  | v :: rest, al, ac =>
    let poll := pollName v
    if (keys al).contains poll then .error (.pollConflict poll, al, ac)
    else
      let al1 := al ++ [(poll, mkPoll server v)]
      let ac1 := match container with
                 | some c => some (upsert (ac.getD []) poll c)
                 | none => ac
      injectPolls server container rest (redirectAll v poll al1) ac1

/-- inject_vm_actions_parallel.  The error value carries the workflow
state at the moment the exception is raised: the precondition and
start/stop conflict checks raise before any mutation, while a poll-name
conflict raises after start/stop (and any earlier polls and
redirections) were already inserted. -/
def inject_vm_actions_parallel (w : Workflow) :
    Except (InjectError × Workflow) Workflow :=
  if !w.hasVMConfig then .error (.noVMConfig, w) else
  match find_entry_action w.actionList with
  | .error e => .error (e, w)
  | .ok entry =>
  match find_leaf_actions w.actionList with
  | .error e => .error (e, w)
  | .ok leaves =>
  match find_github_server w with
  | .error e => .error (e, w)
  | .ok server =>
  let container := find_container_for_server (w.actionContainers.getD []) w.actionList server
  if (keys w.actionList).contains vmStartName then .error (.startConflict, w) else
  if (keys w.actionList).contains vmStopName then .error (.stopConflict, w) else
  let al2 := (w.actionList ++ [(vmStartName, mkStart server entry)])
               ++ [(vmStopName, mkStop server)]
  let vmActs := (al2.filter (fun p => p.2.requiresVM)).map Prod.fst
  match injectPolls server container vmActs al2 w.actionContainers with
  | .error (e, al, ac) =>
      .error (e, { w with actionList := al, actionContainers := ac })
  | .ok (al3, ac3) =>
      let al4 := setLeavesToStop al3 leaves
      let base := ac3.getD []
      let ac5 := match container with
                 | some c => some (upsert (upsert base vmStartName c) vmStopName c)
                 | none => some base
      .ok { w with actionList := al4, actionContainers := ac5,
                   functionInvoke := vmStartName }

/-- The two strategies selectable on the command line. -/
inductive Strategy where
  | sequential
  | parallel
deriving DecidableEq, Repr

/-- The run method: if no action requires a VM the workflow is saved
unchanged, otherwise the selected strategy is applied. -/
def run (strat : Strategy) (w : Workflow) :
    Except (InjectError × Workflow) Workflow :=
  if !needs_vm w then .ok w
  else match strat with
    | .parallel => inject_vm_actions_parallel w
    | .sequential => inject_vm_actions_sequential w

/-- Lookup of an action configuration by name. -/
def lookupAction (al : List (String × Action)) (n : String) : Option Action :=
  (al.find? (fun p => p.1 == n)).map Prod.snd

/-- Modelled from the spec: the count of distinct actions that name a
given action as a successor, where an action's own conditional branches
count each distinct target once, not once per condition label
(comparison definition for the predecessor count of
find_entry_action). -/
def distinctPredCount (al : List (String × Action)) (t : String) : Nat :=
  (al.filter (fun p => (flattenInvoke p.2.invokeNext).contains t)).length

/-- A conditional value with every target outside the given key list
removed. -/
def pruneCondVal (ks : List String) : CondVal → CondVal
  | .s v => if ks.contains v then .s v else .l []
  | .l vs => .l (vs.filter (fun x => ks.contains x))

/-- An InvokeNext with every target that is not an action name removed,
used to state that entry-point discovery ignores dangling targets. -/
def pruneTargets (ks : List String) : InvokeNext → InvokeNext
  | .str s => if ks.contains s then .str s else .list []
  | .list l => .list (l.filter (fun x => ks.contains x))
  | .cond m => .cond (m.map (fun p => (p.1, pruneCondVal ks p.2)))

/-- An action list with all dangling successor targets removed. -/
def pruneActionList (al : List (String × Action)) : List (String × Action) :=
  al.map (fun p => (p.1, { p.2 with invokeNext := pruneTargets (keys al) p.2.invokeNext }))

/-! ### Concrete test fixtures -/

/-- A user action fixture. -/
def mkA (rvm : Bool) (inv : InvokeNext) : Action :=
  { functionName := "f", faasServer := "gh", typ := "Python",
    requiresVM := rvm, invokeNext := inv, builtin := false }

/-- A compute-server map with one GitHub Actions server. -/
def gServers : Option (List (String × String)) := some [("gh", "GitHubActions")]

/-- C1 fixture: action x reaches the VM-requiring action b only through
a conditional mapping. -/
def W1 : Workflow :=
  { actionList := [("x", mkA false (.cond [("go", .s "b")])),
                   ("b", mkA true (.list []))],
    actionContainers := none, computeServers := gServers,
    hasVMConfig := true, functionInvoke := "x" }

/-- The workflow the parallel strategy produces from W1: the poll node
exists but the conditional edge from x still targets b directly. -/
def W1out : Workflow :=
  { actionList := [("x", mkA false (.cond [("go", .s "b")])),
                   ("b", mkA true (.list ["faasr-vm-stop"])),
                   ("faasr-vm-start", mkStart "gh" "x"),
                   ("faasr-vm-stop", mkStop "gh"),
                   ("faasr-vm-poll-b", mkPoll "gh" "b")],
    actionContainers := some [], computeServers := gServers,
    hasVMConfig := true, functionInvoke := "faasr-vm-start" }

/-- C2 fixture: onSuccess/onFailure conditional edge whose onFailure
branch targets the VM-requiring action b. -/
def W2 : Workflow :=
  { actionList := [("x", mkA false (.cond [("onSuccess", .s "a"), ("onFailure", .s "b")])),
                   ("a", mkA false (.list [])),
                   ("b", mkA true (.list []))],
    actionContainers := none, computeServers := gServers,
    hasVMConfig := true, functionInvoke := "x" }

/-- The workflow the parallel strategy produces from W2: the onFailure
branch still names b, not the poll node. -/
def W2out : Workflow :=
  { actionList := [("x", mkA false (.cond [("onSuccess", .s "a"), ("onFailure", .s "b")])),
                   ("a", mkA false (.list ["faasr-vm-stop"])),
                   ("b", mkA true (.list ["faasr-vm-stop"])),
                   ("faasr-vm-start", mkStart "gh" "x"),
                   ("faasr-vm-stop", mkStop "gh"),
                   ("faasr-vm-poll-b", mkPoll "gh" "b")],
    actionContainers := some [], computeServers := gServers,
    hasVMConfig := true, functionInvoke := "faasr-vm-start" }

/-- C4 fixture: the only edge into the VM-requiring action v is
conditional, so its poll node ends up with no predecessor. -/
def W4 : Workflow :=
  { actionList := [("p", mkA false (.cond [("c", .s "v")])),
                   ("v", mkA true (.list []))],
    actionContainers := none, computeServers := gServers,
    hasVMConfig := true, functionInvoke := "p" }

/-- C5 fixture: an action already named like the poll node of the
VM-requiring action b. -/
def W5 : Workflow :=
  { actionList := [("x", mkA false (.list ["b", "faasr-vm-poll-b"])),
                   ("b", mkA true (.list [])),
                   ("faasr-vm-poll-b", mkA false (.list []))],
    actionContainers := none, computeServers := gServers,
    hasVMConfig := true, functionInvoke := "x" }

/-- The state the poll-name conflict of W5 is raised in: the start and
stop nodes were already inserted. -/
def W5errState : Workflow :=
  { actionList := [("x", mkA false (.list ["b", "faasr-vm-poll-b"])),
                   ("b", mkA true (.list [])),
                   ("faasr-vm-poll-b", mkA false (.list [])),
                   ("faasr-vm-start", mkStart "gh" "x"),
                   ("faasr-vm-stop", mkStop "gh")],
    actionContainers := none, computeServers := gServers,
    hasVMConfig := true, functionInvoke := "x" }

/-- C8 fixture: a conditional edge with a condition label that happens
to equal the name of the VM-requiring action b. -/
def W8 : Workflow :=
  { actionList := [("p", mkA false (.cond [("b", .s "a"), ("go", .s "b")])),
                   ("a", mkA false (.list [])),
                   ("b", mkA true (.list []))],
    actionContainers := none, computeServers := gServers,
    hasVMConfig := true, functionInvoke := "p" }

/-- The workflow the parallel strategy produces from W8: the
conditional map of p was replaced by the list of its condition labels
with the colliding label substituted, losing both branch targets. -/
def W8out : Workflow :=
  { actionList := [("p", mkA false (.list ["faasr-vm-poll-b", "go"])),
                   ("a", mkA false (.list ["faasr-vm-stop"])),
                   ("b", mkA true (.list ["faasr-vm-stop"])),
                   ("faasr-vm-start", mkStart "gh" "p"),
                   ("faasr-vm-stop", mkStop "gh"),
                   ("faasr-vm-poll-b", mkPoll "gh" "b")],
    actionContainers := some [], computeServers := gServers,
    hasVMConfig := true, functionInvoke := "faasr-vm-start" }

/-- C9 fixture: entry → A → B → leaf with A and B VM-requiring. -/
def W9 : Workflow :=
  { actionList := [("entry", mkA false (.list ["A"])),
                   ("A", mkA true (.list ["B"])),
                   ("B", mkA true (.list ["leaf"])),
                   ("leaf", mkA false (.list []))],
    actionContainers := none, computeServers := gServers,
    hasVMConfig := true, functionInvoke := "entry" }

/-- The workflow the parallel strategy produces from W9: four synthetic
nodes, polls before A and B, the edge into A and the edge into B
rewired to the polls, and the leaf rewired to stop. -/
def W9out : Workflow :=
  { actionList := [("entry", mkA false (.list ["faasr-vm-poll-A"])),
                   ("A", mkA true (.list ["faasr-vm-poll-B"])),
                   ("B", mkA true (.list ["leaf"])),
                   ("leaf", mkA false (.list ["faasr-vm-stop"])),
                   ("faasr-vm-start", mkStart "gh" "entry"),
                   ("faasr-vm-stop", mkStop "gh"),
                   ("faasr-vm-poll-A", mkPoll "gh" "A"),
                   ("faasr-vm-poll-B", mkPoll "gh" "B")],
    actionContainers := some [], computeServers := gServers,
    hasVMConfig := true, functionInvoke := "faasr-vm-start" }

/-- C3 fixture: x names a under two different condition labels. -/
def alC3 : List (String × Action) :=
  [("x", mkA false (.cond [("c1", .s "a"), ("c2", .s "a")])),
   ("a", mkA false (.list []))]

/-- C5 witness fixture: two zero-predecessor actions, so injection
fails with the ambiguous-entry error before any mutation. -/
def WAmb : Workflow :=
  { actionList := [("a", mkA true (.list [])), ("b", mkA false (.list []))],
    actionContainers := none, computeServers := gServers,
    hasVMConfig := true, functionInvoke := "a" }

/-- C6 witness fixture: a workflow already containing an action named
with the reserved start name. -/
def W6 : Workflow :=
  { actionList := [("faasr-vm-start", mkA true (.list []))],
    actionContainers := none, computeServers := gServers,
    hasVMConfig := true, functionInvoke := "faasr-vm-start" }

/-- C7 witness fixture: no action requires a VM. -/
def W7 : Workflow :=
  { actionList := [("x", mkA false (.list ["y"])), ("y", mkA false (.list []))],
    actionContainers := none, computeServers := gServers,
    hasVMConfig := false, functionInvoke := "x" }

/-- C10 witness fixture: x has a successor edge naming ghost, which is
not an action. -/
def alC10 : List (String × Action) :=
  [("x", mkA false (.list ["ghost", "y"])), ("y", mkA false (.list []))]

/-! ### Theorems -/

/-- C1: the poll-gate completeness property fails on a conditional
edge.  In W1 the only edge into the VM-requiring action b is the
conditional mapping of x; after the parallel injection that edge still
targets b directly (the poll node exists but is bypassed), and b has
two incoming edges, not only the poll node's one. -/
theorem C1_conditional_edge_bypasses_poll :
    inject_vm_actions_parallel W1 = .ok W1out ∧
    (lookupAction W1out.actionList "x").map Action.invokeNext =
      some (.cond [("go", CondVal.s "b")]) ∧
    predSum W1out.actionList "b" = 2 := ⟨rfl, rfl, rfl⟩

/-- C2: the conditional-branch redirection property fails.  In W2 the
onFailure branch of x targets the VM-requiring action b; after the
parallel injection the mapping is completely unchanged — the onFailure
branch still names b, not the poll node of b. -/
theorem C2_conditional_branch_not_redirected :
    inject_vm_actions_parallel W2 = .ok W2out ∧
    (lookupAction W2out.actionList "x").map Action.invokeNext =
      some (.cond [("onSuccess", CondVal.s "a"), ("onFailure", CondVal.s "b")]) :=
  ⟨rfl, rfl⟩

/-- C4: the single-entry invariant fails when the only edge into a
VM-requiring action is conditional: in the graph the parallel strategy
produces from W4, both the synthetic start node and the orphaned poll
node have zero predecessors. -/
theorem C4_orphan_poll_breaks_single_entry :
    (inject_vm_actions_parallel W4).toOption.map
      (fun w2 => (keys w2.actionList).filter (fun n => predSum w2.actionList n == 0)) =
    some [vmStartName, pollName "v"] := by decide

/-- C5 counterexample: a poll-name conflict is discovered only while
processing the VM-requiring actions, after the start and stop nodes
were already inserted, so the error leaves a partially mutated
workflow, not the input. -/
theorem C5_poll_conflict_mutates_workflow :
    inject_vm_actions_parallel W5 =
      .error (.pollConflict "faasr-vm-poll-b", W5errState) ∧
    W5errState ≠ W5 := ⟨rfl, by decide⟩

/-- C8: shape preservation fails for a conditional map one of whose
condition labels equals the VM action's name: the map of p in W8 is
replaced by the plain list of its condition labels with the colliding
label substituted by the poll name — the map shape, the key set and
both branch targets are lost. -/
theorem C8_conditional_map_mangled :
    inject_vm_actions_parallel W8 = .ok W8out ∧
    (lookupAction W8out.actionList "p").map Action.invokeNext =
      some (.list ["faasr-vm-poll-b", "go"]) := ⟨rfl, rfl⟩

/-- C9: on the chain entry → A → B → leaf with A and B VM-requiring,
the parallel strategy produces exactly the expected graph: four
synthetic nodes (start, stop, poll-A, poll-B), start wired to entry,
the edge into A rewired to poll-A, the edge into B rewired to poll-B,
the leaf rewired to stop, and everything else unchanged. -/
theorem C9_chained_vm_actions :
    inject_vm_actions_parallel W9 = .ok W9out := rfl

/-- A list of naturals sums to zero iff every element is zero. -/
theorem natList_sum_eq_zero (l : List Nat) : l.sum = 0 ↔ ∀ x ∈ l, x = 0 := by
  induction l with
  | nil => simp
  | cons a t ih => simp [Nat.add_eq_zero, ih]

/-- The predecessor count of find_entry_action is zero iff no action
mentions the name among its flattened successors. -/
theorem predSum_eq_zero (al : List (String × Action)) (t : String) :
    predSum al t = 0 ↔ ∀ p ∈ al, t ∉ flattenInvoke p.2.invokeNext := by
  unfold predSum
  rw [natList_sum_eq_zero]
  constructor
  · intro h p hp
    rw [← List.count_eq_zero]
    exact h _ (List.mem_map_of_mem _ hp)
  · intro h x hx
    obtain ⟨p, hp, rfl⟩ := List.mem_map.mp hx
    exact List.count_eq_zero.mpr (h p hp)

/-- The distinct-predecessor count is zero iff no action mentions the
name among its flattened successors. -/
theorem distinctPredCount_eq_zero (al : List (String × Action)) (t : String) :
    distinctPredCount al t = 0 ↔ ∀ p ∈ al, t ∉ flattenInvoke p.2.invokeNext := by
  unfold distinctPredCount
  rw [List.length_eq_zero, List.filter_eq_nil_iff]
  simp [List.elem_iff]

/-- C3 counterexample: in alC3 the action x names a under two condition
labels; the predecessor count computed by find_entry_action for a is 2
(one per condition label), not the count of distinct naming actions,
which is 1. -/
theorem C3_label_counted_per_occurrence :
    predSum alC3 "a" = 2 ∧ distinctPredCount alC3 "a" = 1 ∧
    predSum alC3 "a" ≠ distinctPredCount alC3 "a" := by decide

/-- C3 amended: find_entry_action counts one predecessor per occurrence
of the target (one per condition label and per list entry), not one per
distinct naming action; the returned action is nevertheless the unique
action with count zero, and having count zero coincides with having
zero distinct naming actions, so it is also the unique action no other
action names as a successor. -/
theorem C3_entry_is_unique_unnamed_action (al : List (String × Action)) (e : String)
    (h : find_entry_action al = .ok e) :
    e ∈ keys al ∧ predSum al e = 0 ∧ distinctPredCount al e = 0 ∧
    ∀ n ∈ keys al, predSum al n = 0 → n = e := by
  have hf : (keys al).filter (fun n => predSum al n == 0) = [e] := by
    unfold find_entry_action at h
    split at h
    · exact Except.noConfusion h
    · next e1 heq =>
      simp only [Except.ok.injEq] at h
      rw [← h]; exact heq
    · exact Except.noConfusion h
  have he : e ∈ (keys al).filter (fun n => predSum al n == 0) := by
    rw [hf]; exact List.mem_singleton.mpr rfl
  rw [List.mem_filter] at he
  have hz : predSum al e = 0 := by
    have := he.2; simpa using this
  refine ⟨he.1, hz, ?_, ?_⟩
  · rw [distinctPredCount_eq_zero]
    rw [predSum_eq_zero] at hz
    exact hz
  · intro n hn hpn
    have : n ∈ (keys al).filter (fun n => predSum al n == 0) :=
      List.mem_filter.mpr ⟨hn, by simpa using hpn⟩
    rw [hf] at this
    exact List.mem_singleton.mp this

/-- C3 witness: the amended theorem applied to the concrete action list
alC3, whose entry is x. -/
theorem C3_entry_is_unique_unnamed_action_witness :
    find_entry_action alC3 = .ok "x" ∧
    ("x" ∈ keys alC3 ∧ predSum alC3 "x" = 0 ∧ distinctPredCount alC3 "x" = 0 ∧
     ∀ n ∈ keys alC3, predSum alC3 n = 0 → n = "x") :=
  ⟨rfl, C3_entry_is_unique_unnamed_action alC3 "x" rfl⟩

/-- C7: a workflow with no VM-requiring action is returned unchanged by
the run method under either strategy: no synthetic node is added, no
edge is rewritten and the entry point is untouched. -/
theorem C7_no_vm_is_noop (w : Workflow) (strat : Strategy)
    (h : needs_vm w = false) : run strat w = .ok w := by
  unfold run
  rw [h]
  rfl

/-- C7 witness: the no-op theorem applied to the concrete workflow W7
under both strategies. -/
theorem C7_no_vm_is_noop_witness :
    needs_vm W7 = false ∧
    run .sequential W7 = .ok W7 ∧ run .parallel W7 = .ok W7 :=
  ⟨rfl, C7_no_vm_is_noop W7 .sequential rfl, C7_no_vm_is_noop W7 .parallel rfl⟩

/-- The targets of a pruned conditional value are the targets that are
action names. -/
theorem pruneCondVal_targets (ks : List String) (c : CondVal) :
    (pruneCondVal ks c).targets = c.targets.filter (fun x => ks.contains x) := by
  cases c with
  | s v =>
    by_cases h : v ∈ ks
    · simp [pruneCondVal, CondVal.targets, List.elem_iff, h]
    · simp [pruneCondVal, CondVal.targets, List.elem_iff, h]
  | l vs => rfl

/-- Flattening a pruned InvokeNext filters the flattened targets. -/
theorem flattenInvoke_prune (ks : List String) (inv : InvokeNext) :
    flattenInvoke (pruneTargets ks inv) =
      (flattenInvoke inv).filter (fun x => ks.contains x) := by
  cases inv with
  | str s =>
    by_cases h : s ∈ ks
    · simp [pruneTargets, flattenInvoke, List.elem_iff, h]
    · simp [pruneTargets, flattenInvoke, List.elem_iff, h]
  | list l => rfl
  | cond m =>
    induction m with
    | nil => rfl
    | cons p m ih =>
      simp only [pruneTargets, flattenInvoke, List.map_cons, List.foldr_cons] at *
      rw [pruneCondVal_targets, List.filter_append, ih]

/-- Pruning does not change the key list. -/
theorem keys_pruneActionList (al : List (String × Action)) :
    keys (pruneActionList al) = keys al := by
  simp [keys, pruneActionList]

/-- Pruning does not change the predecessor count of any action name. -/
theorem predSum_pruneActionList (al : List (String × Action)) (t : String)
    (ht : t ∈ keys al) : predSum (pruneActionList al) t = predSum al t := by
  unfold predSum pruneActionList
  rw [List.map_map]
  refine congrArg List.sum (List.map_congr_left ?_)
  intro p _
  simp only [Function.comp]
  rw [flattenInvoke_prune]
  exact List.count_filter (by simpa [List.elem_iff] using ht)

/-- C10: entry-point discovery tolerates dangling successor targets —
removing every successor target that is not an action name changes no
action's predecessor count and leaves the result of find_entry_action
unchanged, so a dangling name is silently skipped and the entry point
is computed as if the dangling edges were absent. -/
theorem C10_dangling_targets_ignored (al : List (String × Action)) :
    (∀ t ∈ keys al, predSum (pruneActionList al) t = predSum al t) ∧
    find_entry_action (pruneActionList al) = find_entry_action al := by
  refine ⟨fun t ht => predSum_pruneActionList al t ht, ?_⟩
  unfold find_entry_action
  rw [keys_pruneActionList]
  rw [List.filter_congr (fun n hn => by
    rw [predSum_pruneActionList al n hn])]

/-- C10 witness: the dangling-target theorem applied to the concrete
action list alC10, in which x names the nonexistent action ghost. -/
theorem C10_dangling_targets_ignored_witness :
    (∀ t ∈ keys alC10, predSum (pruneActionList alC10) t = predSum alC10 t) ∧
    find_entry_action (pruneActionList alC10) = find_entry_action alC10 :=
  C10_dangling_targets_ignored alC10

/-- The only error the poll-insertion loop can raise is a poll-name
conflict. -/
theorem injectPolls_error_is_pollConflict (server : String)
    (container : Option String) (vs : List String) :
    ∀ al ac e st, injectPolls server container vs al ac = .error (e, st) →
      ∃ n, e = .pollConflict n := by
  induction vs with
  | nil =>
    intro al ac e st h
    exact Except.noConfusion h
  | cons v rest ih =>
    intro al ac e st h
    unfold injectPolls at h
    simp only [] at h
    repeat' split at h
    all_goals
      first
      | (simp only [Except.error.injEq, Prod.mk.injEq] at h
         exact ⟨pollName v, h.1.symm⟩)
      | exact ih _ _ _ _ h

/-- Every error of the sequential strategy carries the unmodified
input workflow. -/
theorem seq_error_unchanged (w : Workflow) (e : InjectError) (s : Workflow)
    (h : inject_vm_actions_sequential w = .error (e, s)) : s = w := by
  unfold inject_vm_actions_sequential at h
  simp only [] at h
  repeat' split at h
  all_goals
    first
    | exact Except.noConfusion h
    | (simp only [Except.error.injEq, Prod.mk.injEq] at h; exact h.2.symm)

/-- Every error of the parallel strategy either carries the unmodified
input workflow or is a poll-name conflict. -/
theorem parallel_error_cases (w : Workflow) (e : InjectError) (s : Workflow)
    (h : inject_vm_actions_parallel w = .error (e, s)) :
    s = w ∨ ∃ n, e = .pollConflict n := by
  unfold inject_vm_actions_parallel at h
  simp only [] at h
  repeat' split at h
  all_goals
    first
    | exact Except.noConfusion h
    | (simp only [Except.error.injEq, Prod.mk.injEq] at h; exact Or.inl h.2.symm)
    | (simp only [Except.error.injEq, Prod.mk.injEq] at h
       obtain ⟨n, hn⟩ :=
         injectPolls_error_is_pollConflict _ _ _ _ _ _ _ (by assumption)
       exact Or.inr ⟨n, by rw [← h.1, hn]⟩)

/-- C5 amended: every error raised by either strategy before any
mutation — all precondition, structural and start/stop conflict
errors — leaves the workflow exactly as it was; only the poll-name
conflict of the parallel strategy, raised mid-processing, can leave a
partially mutated workflow. -/
theorem C5_non_poll_errors_atomic (strat : Strategy) (w : Workflow)
    (e : InjectError) (s : Workflow)
    (h : (match strat with
          | Strategy.sequential => inject_vm_actions_sequential w
          | Strategy.parallel => inject_vm_actions_parallel w) = .error (e, s))
    (hp : ∀ n, e ≠ InjectError.pollConflict n) : s = w := by
  cases strat with
  | sequential => exact seq_error_unchanged w e s h
  | parallel =>
    rcases parallel_error_cases w e s h with h1 | ⟨n, rfl⟩
    · exact h1
    · exact absurd rfl (hp n)

/-- C5 witness: the atomicity theorem applied to the workflow WAmb,
whose injection fails with the ambiguous-entry error. -/
theorem C5_non_poll_errors_atomic_witness :
    inject_vm_actions_sequential WAmb = .error (.ambiguousEntry, WAmb) ∧
    WAmb = WAmb :=
  ⟨rfl, C5_non_poll_errors_atomic .sequential WAmb .ambiguousEntry WAmb rfl
    (fun _ hcontra => InjectError.noConfusion hcontra)⟩

/-- C6: a workflow already containing an action named with the reserved
start name can never be successfully injected by either strategy, every
resulting error carries the unmodified input workflow, and as soon as
the structural prechecks (VM configuration, unique entry, nonempty
leaves, GitHub server) pass, the error is specifically the start-name
conflict. -/
theorem C6_reserved_start_name_conflict (w : Workflow)
    (hn : (keys w.actionList).contains vmStartName = true) :
    (∀ r, inject_vm_actions_sequential w ≠ .ok r) ∧
    (∀ r, inject_vm_actions_parallel w ≠ .ok r) ∧
    (∀ e s, inject_vm_actions_sequential w = .error (e, s) → s = w) ∧
    (∀ e s, inject_vm_actions_parallel w = .error (e, s) → s = w) ∧
    (w.hasVMConfig = true →
      ∀ en ls sv, find_entry_action w.actionList = .ok en →
        find_leaf_actions w.actionList = .ok ls →
        find_github_server w = .ok sv →
        inject_vm_actions_sequential w = .error (.startConflict, w) ∧
        inject_vm_actions_parallel w = .error (.startConflict, w)) := by
  refine ⟨?_, ?_, fun e s h => seq_error_unchanged w e s h, ?_, ?_⟩
  · intro r h
    unfold inject_vm_actions_sequential at h
    simp only [] at h
    repeat' split at h
    all_goals
      first
      | exact Except.noConfusion h
      | exact absurd hn (by assumption)
  · intro r h
    unfold inject_vm_actions_parallel at h
    simp only [] at h
    repeat' split at h
    all_goals
      first
      | exact Except.noConfusion h
      | exact absurd hn (by assumption)
  · intro e s h
    unfold inject_vm_actions_parallel at h
    simp only [] at h
    repeat' split at h
    all_goals
      first
      | exact Except.noConfusion h
      | (simp only [Except.error.injEq, Prod.mk.injEq] at h; exact h.2.symm)
      | exact absurd hn (by assumption)
  · intro hvm en ls sv he hl hs
    have hmem : vmStartName ∈ keys w.actionList := by
      simpa [List.elem_iff] using hn
    constructor
    · simp [inject_vm_actions_sequential, hvm, he, hl, hs, hmem]
    · simp [inject_vm_actions_parallel, hvm, he, hl, hs, hmem]

/-- C6 witness: the conflict theorem applied to the concrete workflow
W6, which contains an action literally named faasr-vm-start. -/
theorem C6_reserved_start_name_conflict_witness :
    (keys W6.actionList).contains vmStartName = true ∧
    inject_vm_actions_sequential W6 = .error (.startConflict, W6) ∧
    inject_vm_actions_parallel W6 = .error (.startConflict, W6) :=
  ⟨rfl, (C6_reserved_start_name_conflict W6 rfl).2.2.2.2 rfl
    "faasr-vm-start" ["faasr-vm-start"] "gh" rfl rfl rfl⟩

end FaasrVM
